import Mathlib

/-!
Verification of the LoveStat chat-analysis backend.

The development shallowly embeds the aggregation core of `chatParser.js`
(`analyzeChat`) and the query routes of `server.js`.  JavaScript objects
used as string-keyed maps are modelled as insertion-ordered association
lists (`List (String × Nat)`), which matches the enumeration order of
non-index string keys in JS objects.  Machine details that the claims do
not touch (structured-text serialization, the full Unicode emoji data
tables of the third-party `emoji-regex` package, time zones) are modelled
by restricted but honest counterparts, each documented at its definition.
-/

/-- Models the case canonicalization performed by a JavaScript regex with the
`i` flag (and `String.prototype.toLowerCase`) restricted to the alphabets the
program actually scans: ASCII letters and the Ukrainian Cyrillic repertoire
(А–Я, Є, І, Ї, Ґ).  Other characters are left unchanged. -/
def jsToLower (c : Char) : Char :=
  let n := c.toNat
  if 0x41 ≤ n ∧ n ≤ 0x5A then Char.ofNat (n + 0x20)
  else if 0x410 ≤ n ∧ n ≤ 0x42F then Char.ofNat (n + 0x20)
  else if n = 0x404 then Char.ofNat 0x454
  else if n = 0x406 then Char.ofNat 0x456
  else if n = 0x407 then Char.ofNat 0x457
  else if n = 0x490 then Char.ofNat 0x491
  else c

/-- Case-folded character sequence of a string. -/
def foldStr (s : String) : List Char := s.toList.map jsToLower

/-- `String.prototype.toLowerCase` as used for the keyword-map keys. -/
def lowerStr (s : String) : String := String.mk (foldStr s)

/-- Scan loop of `countMatches`, structurally recursive on a fuel argument
(one unit per text position, which bounds the number of scan steps). -/
def countMatchesGo (pat : List Char) : Nat → List Char → Nat
  | 0, _ => 0
  | _, [] => 0
  | fuel + 1, c :: rest =>
    if pat.isPrefixOf (c :: rest) then
      1 + countMatchesGo pat fuel (rest.drop (pat.length - 1))
    else
      countMatchesGo pat fuel rest

/-- Number of matches of `messageText.match(new RegExp(pat, "gi"))` for a
literal pattern (the fixed keywords contain no regex metacharacters): a
left-to-right scan counting non-overlapping occurrences, both sides already
case-folded. -/
def countMatches (pat txt : List Char) : Nat :=
  countMatchesGo pat txt.length txt

/-- Case-insensitive occurrence count of keyword `kw` in `text`, as produced
by `new RegExp(keyword, "gi")` matching in `analyzeChat`. -/
def countKeywordHits (kw text : String) : Nat :=
  countMatches (foldStr kw) (foldStr text)

/-- The fixed keyword list of `analyzeChat` (chatParser.js line 48). -/
def fixedKeywords : List String := ["Добраніч", "Солодких", "Доброго ранку", "Скучив"]

/-- Single-codepoint emoji recognizer standing in for the `emoji-regex`
dependency (a third-party package, not part of this repository): the
principal Unicode emoji blocks.  Multi-codepoint sequences (ZWJ, flags,
skin-tone modifiers) are outside the model; no claim exercises them. -/
def isEmojiChar (c : Char) : Bool :=
  let n := c.toNat
  (0x1F000 ≤ n && n ≤ 0x1FAFF) || (0x2600 ≤ n && n ≤ 0x27BF) ||
    (0x2B00 ≤ n && n ≤ 0x2BFF)

/-- Emoji occurrences of a text in order of appearance, each as its own
one-grapheme string, as produced by the `regex.exec` loop in `analyzeChat`. -/
def extractEmojis (t : String) : List String :=
  (t.toList.filter isEmojiChar).map (fun c => String.mk [c])

/-- A Telegram export entry.  `text` holds the message text after the
`typeof`-based string conversion of `analyzeChat` (a structured text is
serialized upstream); the empty string models an absent or otherwise falsy
`text` field.  `photo` and `photo_id` hold the truthiness of the
corresponding fields. -/
structure Message where
  type : String
  date : String
  text : String := ""
  photo : Bool := false
  media_type : Option String := none
  photo_id : Bool := false
deriving DecidableEq

/-- The photo test of `analyzeChat` (chatParser.js lines 80–84):
`message.photo || (message.media_type && message.media_type === "photo") || message.photo_id`. -/
def photoCheck (m : Message) : Bool :=
  m.photo ||
    (match m.media_type with
     | some s => (s != "") && (s == "photo")
     | none => false) ||
    m.photo_id

def digitVal (c : Char) : Nat := c.toNat - '0'.toNat

/-- Validity of the optional time part of an ISO date-time string, modelling
the `THH:MM` / `THH:MM:SS` forms accepted by `new Date(...)` (the subset the
Telegram export uses; offsets and fractional seconds are outside the model). -/
def validTime : List Char → Bool
  | [] => true
  | 'T' :: h1 :: h2 :: ':' :: m1 :: m2 :: rest =>
    h1.isDigit && h2.isDigit && m1.isDigit && m2.isDigit &&
      decide (digitVal h1 * 10 + digitVal h2 < 24) &&
      decide (digitVal m1 * 10 + digitVal m2 < 60) &&
      (match rest with
       | [] => true
       | ':' :: s1 :: s2 :: [] =>
         s1.isDigit && s2.isDigit && decide (digitVal s1 * 10 + digitVal s2 < 60)
       | _ => false)
  | _ => false

/-- `new Date(s)` restricted to the ISO `YYYY-MM-DD[THH:MM[:SS]]` format of
Telegram exports, returning the (year, month) pair that
`getFullYear()` / `getMonth() + 1` would yield; `none` models an invalid
date (`NaN` fields). -/
def parseDate (s : String) : Option (Nat × Nat) :=
  match s.toList with
  | y1 :: y2 :: y3 :: y4 :: '-' :: m1 :: m2 :: '-' :: d1 :: d2 :: rest =>
    if y1.isDigit && y2.isDigit && y3.isDigit && y4.isDigit &&
        m1.isDigit && m2.isDigit && d1.isDigit && d2.isDigit then
      let mo := digitVal m1 * 10 + digitVal m2
      let da := digitVal d1 * 10 + digitVal d2
      if decide (1 ≤ mo) && decide (mo ≤ 12) && decide (1 ≤ da) &&
          decide (da ≤ 31) && validTime rest then
        some (digitVal y1 * 1000 + digitVal y2 * 100 + digitVal y3 * 10 + digitVal y4, mo)
      else none
    else none
  | _ => none

/-- `String(n).padStart(2, "0")` for the month number. -/
def pad2 (n : Nat) : String := if n < 10 then "0" ++ toString n else toString n

/-- The month key computed at chatParser.js lines 56–59:
`` `${d.getFullYear()}-${String(d.getMonth()+1).padStart(2,"0")}` ``.
On an invalid date both getters return `NaN` and the template literal
produces the string `"NaN-NaN"`. -/
def monthKeyOf (dateStr : String) : String :=
  match parseDate dateStr with
  | some (y, mo) => toString y ++ "-" ++ pad2 mo
  | none => "NaN-NaN"

/-- A month bucket during the aggregation pass (before the post-pass). -/
structure RawBucket where
  month : String
  messageCount : Nat
  photoCount : Nat
  keywords : List (String × Nat)
  emojis : List (String × Nat)
deriving DecidableEq

/-- The lazily created bucket of chatParser.js lines 62–74. -/
def initBucket (key : String) : RawBucket :=
  { month := key
    messageCount := 0
    photoCount := 0
    keywords := fixedKeywords.map (fun kw => (lowerStr kw, 0))
    emojis := [] }

/-- `obj[k] = (obj[k] || 0) + delta` on a JS object modelled as an
insertion-ordered association list: an existing entry is updated in place,
a new key is appended at the end. -/
def bumpAssoc (k : String) (delta : Nat) : List (String × Nat) → List (String × Nat)
  | [] => [(k, delta)]
  | (k', v) :: rest =>
    if k' == k then (k', v + delta) :: rest else (k', v) :: bumpAssoc k delta rest

/-- One keyword step of the scan loop (chatParser.js lines 97–104): count
matches, and add the count to the bucket's keyword map when any matched. -/
def kwStep (text : String) (b : RawBucket) (kw : String) : RawBucket :=
  let c := countKeywordHits kw text
  if c > 0 then { b with keywords := bumpAssoc (lowerStr kw) c b.keywords } else b

/-- One emoji step of the `regex.exec` loop (chatParser.js lines 107–113). -/
def emStep (b : RawBucket) (e : String) : RawBucket :=
  { b with emojis := bumpAssoc e 1 b.emojis }

/-- Per-message bucket update of `analyzeChat`: count the message, the photo
test, then — when `text` is truthy — the keyword and emoji scans. -/
def updateBucket (m : Message) (b : RawBucket) : RawBucket :=
  let b1 := { b with messageCount := b.messageCount + 1 }
  let b2 := if photoCheck m then { b1 with photoCount := b1.photoCount + 1 } else b1
  if m.text ≠ "" then
    (extractEmojis m.text).foldl emStep (fixedKeywords.foldl (kwStep m.text) b2)
  else b2

/-- Update the (first) entry of key `k` in place; other entries untouched. -/
def updateAt (k : String) (f : RawBucket → RawBucket) :
    List (String × RawBucket) → List (String × RawBucket)
  | [] => []
  | (k', b) :: rest =>
    if k' == k then (k', f b) :: rest else (k', b) :: updateAt k f rest

/-- Processing of one export entry by the `forEach` body of `analyzeChat`:
skip non-"message" entries, compute the month key, lazily create the bucket,
and accumulate into it. -/
def processMessage (stats : List (String × RawBucket)) (m : Message) :
    List (String × RawBucket) :=
  if m.type ≠ "message" then stats
  else
    let key := monthKeyOf m.date
    let stats' :=
      if (stats.lookup key).isSome then stats else stats ++ [(key, initBucket key)]
    updateAt key (updateBucket m) stats'

/-- Stable insertion of one (emoji, count) pair into a descending-sorted
list: the new element goes after every already-placed element of greater or
equal count. -/
def insertDesc (x : String × Nat) : List (String × Nat) → List (String × Nat)
  | [] => [x]
  | y :: ys => if x.2 ≤ y.2 then y :: insertDesc x ys else x :: y :: ys

/-- The ranking sort of chatParser.js line 127,
`Object.entries(emojiCounts).sort((a, b) => b.count - a.count)`: a stable
descending sort over the map in insertion order (`Array.prototype.sort` is
stable per ES2019). -/
def sortDesc (l : List (String × Nat)) : List (String × Nat) :=
  l.foldl (fun acc x => insertDesc x acc) []

/-- A finalized month bucket after the post-pass (top emojis and the
formatted name/value sequences, chatParser.js lines 118–147).  The formatted
pairs are kept as (name, value) tuples. -/
structure StatBucket where
  month : String
  messageCount : Nat
  photoCount : Nat
  keywords : List (String × Nat)
  emojis : List (String × Nat)
  topEmojis : List (String × Nat)
  keywordsFormatted : List (String × Nat)
  emojisFormatted : List (String × Nat)
deriving DecidableEq

/-- The post-pass of `analyzeChat` for one bucket: sort the emoji map
descending by count, keep the first 4, and map both maps to name/value
sequences. -/
def finalizeBucket (b : RawBucket) : StatBucket :=
  let top := (sortDesc b.emojis).take 4
  { month := b.month
    messageCount := b.messageCount
    photoCount := b.photoCount
    keywords := b.keywords
    emojis := b.emojis
    topEmojis := top
    keywordsFormatted := b.keywords
    emojisFormatted := top }

/-- The parsed chat export handed to `analyzeChat`. -/
structure ChatData where
  name : Option String
  id : Int
  messages : List Message
deriving DecidableEq

/-- The analysis object returned by `analyzeChat` (chatParser.js lines
149–154).  `lastUpdated` is owned by the persistence layer, not by the
core, and therefore does not appear here. -/
structure ChatAnalysis where
  chatName : Option String
  chatId : Int
  totalMessages : Nat
  monthlyStats : List (String × StatBucket)
deriving DecidableEq

/-- The aggregation core `analyzeChat`. -/
def analyzeChat (d : ChatData) : ChatAnalysis :=
  let raw := d.messages.foldl processMessage []
  { chatName := d.name
    chatId := d.id
    totalMessages := d.messages.length
    monthlyStats := raw.map (fun p => (p.1, finalizeBucket p.2)) }

/-- Sum, over all buckets, of `messageCount`. -/
def sumCounts (a : ChatAnalysis) : Nat :=
  (a.monthlyStats.map (fun p => p.2.messageCount)).sum

/-- Sum of `messageCount` over a raw bucket list. -/
def rawSum (l : List (String × RawBucket)) : Nat :=
  (l.map (fun p => p.2.messageCount)).sum

/-- `messageCount` of the bucket keyed `k` (0 when absent). -/
def msgCountAt (k : String) (l : List (String × RawBucket)) : Nat :=
  match l.lookup k with
  | some b => b.messageCount
  | none => 0

/-- `photoCount` of the bucket keyed `k` (0 when absent). -/
def photoCountAt (k : String) (l : List (String × RawBucket)) : Nat :=
  match l.lookup k with
  | some b => b.photoCount
  | none => 0

/-- Result of a query route: HTTP 400 (format), 404 (not found), or a JSON
success payload. -/
inductive QueryResult (α : Type) where
  | invalidFormat
  | notFound
  | ok (val : α)
deriving DecidableEq

/-- The `^\d{4}$` test of the year route (server.js line 69). -/
def isYearStr (s : String) : Bool :=
  s.toList.length == 4 && s.toList.all Char.isDigit

/-- The `^\d{4}-\d{2}$` test of the month route (server.js line 106). -/
def isMonthKeyStr (s : String) : Bool :=
  match s.toList with
  | [a, b, c, d, '-', e, f] =>
    a.isDigit && b.isDigit && c.isDigit && d.isDigit && e.isDigit && f.isDigit
  | _ => false

/-- `String.prototype.startsWith`, modelled on the character sequences. -/
def strStartsWith (s pre : String) : Bool :=
  pre.toList.isPrefixOf s.toList

/-- Stable insertion for the ascending-by-month sort of the year route. -/
def insertByMonth (x : String × Nat) : List (String × Nat) → List (String × Nat)
  | [] => [x]
  | y :: ys => if y.1 ≤ x.1 then y :: insertByMonth x ys else x :: y :: ys

/-- `.sort((a, b) => a.month.localeCompare(b.month))` (server.js line 88),
modelled as a stable ascending sort by the month string (code-point order,
which coincides with locale order on `YYYY-MM` digit strings). -/
def sortByMonth (l : List (String × Nat)) : List (String × Nat) :=
  l.foldl (fun acc x => insertByMonth x acc) []

/-- GET `/api/statistics/year/:year` (server.js lines 64–95), as a function
of the stored analysis document (`none` models an empty collection).  The
success payload is the list of (month, messageCount) pairs. -/
def yearQuery (year : String) (stored : Option ChatAnalysis) :
    QueryResult (List (String × Nat)) :=
  if !(isYearStr year) then .invalidFormat
  else
    match stored with
    | none => .notFound
    | some a =>
      let yp := year ++ "-"
      .ok (sortByMonth ((a.monthlyStats.filter
        (fun p => strStartsWith p.2.month yp)).map
        (fun p => (p.2.month, p.2.messageCount))))

/-- The JSON body of a successful month query (server.js lines 131–143);
the keyword/emoji objects are kept as (name, value) pair lists. -/
structure MonthResponse where
  month : String
  totalMessages : Nat
  keywords : List (String × Nat)
  emojis : List (String × Nat)
  memeCount : Nat
deriving DecidableEq

/-- GET `/api/statistics/:monthKey` (server.js lines 101–150). -/
def monthQuery (mk : String) (stored : Option ChatAnalysis) :
    QueryResult MonthResponse :=
  if !(isMonthKeyStr mk) then .invalidFormat
  else
    match stored with
    | none => .notFound
    | some a =>
      match a.monthlyStats.find? (fun p => p.2.month == mk) with
      | none => .notFound
      | some p =>
        .ok { month := p.2.month
              totalMessages := p.2.messageCount
              keywords := p.2.keywordsFormatted
              emojis := p.2.emojisFormatted
              memeCount := p.2.photoCount }

/-! ### Concrete inputs used by scenarios, counterexamples and witnesses -/

/-- A type="message" entry whose `date` does not parse. -/
def msgBad : Message := { type := "message", date := "not-a-date", text := "Привіт" }

def exBad : ChatData := { name := some "chat", id := 7, messages := [msgBad] }

/-- The spec's scenario message `Добраніч 😀 Добраніч` in January 2024. -/
def ex4 : ChatData :=
  { name := some "chat", id := 1
    messages := [{ type := "message", date := "2024-01-05T10:00:00",
                   text := "Добраніч 😀 Добраніч" }] }

/-- A photo-only message (truthy `photo`, no text). -/
def msg6 : Message := { type := "message", date := "2024-02-10T08:30:00", photo := true }

def ex6 : ChatData := { name := none, id := 2, messages := [msg6] }

/-- An export with a single bucket "2023-05", used as a stored document. -/
def ex7 : ChatData :=
  { name := some "c", id := 3
    messages := [{ type := "message", date := "2023-05-01T00:00:00", text := "hi" }] }

def stored7 : ChatAnalysis := analyzeChat ex7

/-- A service entry, an ordinary message, and an unparseable-date message. -/
def ex10 : ChatData :=
  { name := none, id := 4
    messages := [{ type := "service", date := "2024-03-01T00:00:00" },
                 { type := "message", date := "2024-03-02T00:00:00", text := "ok" },
                 msgBad] }

/-- The emoji table of the spec's top-K scenario: counts [3,3,2,1,1] in
first-seen order 🎉 🔥 😀 🥳 🎈. -/
def ex3Bucket : RawBucket :=
  { month := "2024-01", messageCount := 10, photoCount := 0, keywords := []
    emojis := [("🎉", 3), ("🔥", 3), ("😀", 2), ("🥳", 1), ("🎈", 1)] }

example : parseDate "2024-01-05T10:00:00" = some (2024, 1) := by decide
example : parseDate "not-a-date" = none := by decide
example : monthKeyOf "2024-01-05T10:00:00" = "2024-01" := by decide
example : monthKeyOf "garbage" = "NaN-NaN" := by decide
example : countKeywordHits "Добраніч" "Добраніч 😀 Добраніч" = 2 := by decide
example : extractEmojis "Добраніч 😀 Добраніч" = ["😀"] := by decide
example : lowerStr "Добраніч" = "добраніч" := by decide

/-! ### Claim theorems -/

/-- C1 counterexample: for the export `exBad` (one type="message" entry with
an unparseable date) the buckets sum to 1 message while the number of
type="message" entries with a parseable date is 0 — the claimed equality
fails, because the unparseable message is accumulated under "NaN-NaN"
instead of being skipped. -/
theorem c1_parseable_sum_cex :
    sumCounts (analyzeChat exBad) = 1 ∧
    (exBad.messages.filter
      (fun m => m.type == "message" && (parseDate m.date).isSome)).length = 0 ∧
    sumCounts (analyzeChat exBad) ≠
      (exBad.messages.filter
        (fun m => m.type == "message" && (parseDate m.date).isSome)).length := by
  refine ⟨by decide, by decide, by decide⟩

/-- C2 counterexample: the message of `exBad` has an unparseable date, yet it
is not excluded from every bucket's counts — the output holds exactly one
bucket, "NaN-NaN", whose `messageCount` is 1. -/
theorem c2_skip_cex :
    (analyzeChat exBad).monthlyStats.map (fun p => (p.1, p.2.messageCount)) =
      [("NaN-NaN", 1)] := by
  decide

/-- C7 counterexample: with a stored analysis whose only bucket is
"2023-05", the year query for "2024" (a valid `^\d{4}$` input matching no
bucket) succeeds with an empty list instead of failing with `NotFound`. -/
theorem c7_year_empty_ok_cex :
    yearQuery "2024" (some stored7) = QueryResult.ok [] ∧
    yearQuery "2024" (some stored7) ≠ QueryResult.notFound := by
  constructor
  · decide
  · decide

/-- C8: the aggregation core is a deterministic pure function of the parsed
export: two runs on the same unchanged input produce identical
`ChatAnalysis` values (the model contains no `lastUpdated` field: that
wall-clock timestamp is written by the persistence layer, not by
`analyzeChat`). -/
theorem analyzeChat_deterministic (d1 d2 : ChatData) (h : d1 = d2) :
    analyzeChat d1 = analyzeChat d2 := by
  rw [h]

theorem analyzeChat_deterministic_witness : analyzeChat ex4 = analyzeChat ex4 :=
  analyzeChat_deterministic ex4 ex4 rfl

/-- C10: `totalMessages` is the length of the whole input sequence,
counting entries of every type; on `ex10` (a service entry, an ordinary
message and an unparseable-date message) it is 3 while the buckets only
account for 2 messages. -/
theorem totalMessages_spec :
    (∀ d : ChatData, (analyzeChat d).totalMessages = d.messages.length) ∧
    (analyzeChat ex10).totalMessages = 3 ∧
    sumCounts (analyzeChat ex10) = 2 := by
  refine ⟨fun d => rfl, by decide, by decide⟩

/-- C4: keyword matching is case-insensitive (an upper-cased pattern counts
exactly like the original), substring-based (a keyword inside a larger word
counts), counts non-overlapping matches left to right, and on the spec's
scenario message the bucket "2024-01" has messageCount 1, count 2 for
"добраніч" and count 1 for "😀". -/
theorem keywordScan_spec :
    (∀ t : String, countKeywordHits "ДОБРАНІЧ" t = countKeywordHits "Добраніч" t) ∧
    countKeywordHits "Скучив" "вінскучивбудинку" = 1 ∧
    countMatches ['x', 'x'] ['x', 'x', 'x'] = 1 ∧
    (analyzeChat ex4).monthlyStats.map
        (fun p => (p.1, p.2.messageCount, p.2.keywords.lookup "добраніч",
          p.2.emojis.lookup "😀")) =
      [("2024-01", 1, some 2, some 1)] := by
  refine ⟨?_, by decide, by decide, by decide⟩
  intro t
  unfold countKeywordHits
  have h : foldStr "ДОБРАНІЧ" = foldStr "Добраніч" := by decide
  rw [h]

/-! ### Field-preservation lemmas for the per-message update -/

theorem kwStep_messageCount (t : String) (b : RawBucket) (kw : String) :
    (kwStep t b kw).messageCount = b.messageCount := by
  simp only [kwStep]
  split <;> rfl

theorem kwStep_photoCount (t : String) (b : RawBucket) (kw : String) :
    (kwStep t b kw).photoCount = b.photoCount := by
  simp only [kwStep]
  split <;> rfl

theorem foldl_kwStep_messageCount (t : String) (l : List String) (b : RawBucket) :
    (l.foldl (kwStep t) b).messageCount = b.messageCount := by
  induction l generalizing b with
  | nil => rfl
  | cons kw l ih => rw [List.foldl_cons, ih, kwStep_messageCount]

theorem foldl_kwStep_photoCount (t : String) (l : List String) (b : RawBucket) :
    (l.foldl (kwStep t) b).photoCount = b.photoCount := by
  induction l generalizing b with
  | nil => rfl
  | cons kw l ih => rw [List.foldl_cons, ih, kwStep_photoCount]

theorem foldl_emStep_messageCount (l : List String) (b : RawBucket) :
    (l.foldl emStep b).messageCount = b.messageCount := by
  induction l generalizing b with
  | nil => rfl
  | cons e l ih => rw [List.foldl_cons, ih]; rfl

theorem foldl_emStep_photoCount (l : List String) (b : RawBucket) :
    (l.foldl emStep b).photoCount = b.photoCount := by
  induction l generalizing b with
  | nil => rfl
  | cons e l ih => rw [List.foldl_cons, ih]; rfl

theorem foldl_emStep_keywords (l : List String) (b : RawBucket) :
    (l.foldl emStep b).keywords = b.keywords := by
  induction l generalizing b with
  | nil => rfl
  | cons e l ih => rw [List.foldl_cons, ih]; rfl

theorem updateBucket_messageCount (m : Message) (b : RawBucket) :
    (updateBucket m b).messageCount = b.messageCount + 1 := by
  simp only [updateBucket]
  split
  · rw [foldl_emStep_messageCount, foldl_kwStep_messageCount]
    split <;> rfl
  · split <;> rfl

theorem updateBucket_photoCount (m : Message) (b : RawBucket) :
    (updateBucket m b).photoCount = b.photoCount + (if photoCheck m then 1 else 0) := by
  simp only [updateBucket]
  split
  · rw [foldl_emStep_photoCount, foldl_kwStep_photoCount]
    split <;> simp [*]
  · split <;> simp [*]

/-! ### lookup / updateAt / append lemmas for the bucket map -/

theorem lookup_updateAt_self (k : String) (f : RawBucket → RawBucket)
    (l : List (String × RawBucket)) :
    (updateAt k f l).lookup k = (l.lookup k).map f := by
  induction l with
  | nil => rfl
  | cons p rest ih =>
    obtain ⟨k0, b⟩ := p
    by_cases h : k0 = k
    · subst h
      simp [updateAt, List.lookup]
    · have hb : (k0 == k) = false := beq_eq_false_iff_ne.mpr h
      have hb' : (k == k0) = false := beq_eq_false_iff_ne.mpr (Ne.symm h)
      simp [updateAt, List.lookup, hb, hb', ih]

theorem lookup_updateAt_ne {k k' : String} (h : k' ≠ k) (f : RawBucket → RawBucket)
    (l : List (String × RawBucket)) :
    (updateAt k f l).lookup k' = l.lookup k' := by
  induction l with
  | nil => rfl
  | cons p rest ih =>
    obtain ⟨k0, b⟩ := p
    by_cases h0 : k0 = k
    · subst h0
      have hb : (k' == k0) = false := beq_eq_false_iff_ne.mpr h
      simp [updateAt, List.lookup, hb]
    · have hb : (k0 == k) = false := beq_eq_false_iff_ne.mpr h0
      by_cases h1 : k' = k0
      · subst h1
        simp [updateAt, List.lookup, hb]
      · have hb' : (k' == k0) = false := beq_eq_false_iff_ne.mpr h1
        simp [updateAt, List.lookup, hb, hb', ih]

theorem keys_updateAt (k : String) (f : RawBucket → RawBucket)
    (l : List (String × RawBucket)) :
    (updateAt k f l).map Prod.fst = l.map Prod.fst := by
  induction l with
  | nil => rfl
  | cons p rest ih =>
    obtain ⟨k0, b⟩ := p
    simp only [updateAt]
    split <;> simp [ih]

theorem lookup_append_of_none {l : List (String × RawBucket)} {k : String}
    (h : l.lookup k = none) (b : RawBucket) :
    (l ++ [(k, b)]).lookup k = some b := by
  induction l with
  | nil => simp [List.lookup]
  | cons p rest ih =>
    obtain ⟨k0, v⟩ := p
    by_cases h0 : k = k0
    · subst h0
      simp [List.lookup] at h
    · have hb : (k == k0) = false := beq_eq_false_iff_ne.mpr h0
      simp only [List.lookup, hb] at h
      simp only [List.cons_append, List.lookup, hb]
      exact ih h

theorem lookup_append_ne {l : List (String × RawBucket)} {k k' : String}
    (h : k' ≠ k) (b : RawBucket) :
    (l ++ [(k, b)]).lookup k' = l.lookup k' := by
  induction l with
  | nil => simp [List.lookup, beq_eq_false_iff_ne.mpr h]
  | cons p rest ih =>
    obtain ⟨k0, v⟩ := p
    by_cases h0 : k' = k0
    · subst h0
      simp [List.lookup]
    · have hb : (k' == k0) = false := beq_eq_false_iff_ne.mpr h0
      simp only [List.cons_append, List.lookup, hb]
      exact ih

/-! ### Sum of message counts over the bucket map -/

theorem rawSum_append (l l' : List (String × RawBucket)) :
    rawSum (l ++ l') = rawSum l + rawSum l' := by
  simp [rawSum]

theorem rawSum_updateAt (k : String) (m : Message) (l : List (String × RawBucket))
    (h : (l.lookup k).isSome) :
    rawSum (updateAt k (updateBucket m) l) = rawSum l + 1 := by
  induction l with
  | nil => simp [List.lookup] at h
  | cons p rest ih =>
    obtain ⟨k0, b⟩ := p
    by_cases h0 : k0 = k
    · subst h0
      simp [updateAt, rawSum, updateBucket_messageCount]
      omega
    · have hb : (k0 == k) = false := beq_eq_false_iff_ne.mpr h0
      have hb' : (k == k0) = false := beq_eq_false_iff_ne.mpr (Ne.symm h0)
      have h' : (rest.lookup k).isSome := by
        simpa [List.lookup, hb'] using h
      simp only [updateAt, hb, if_false, Bool.false_eq_true, rawSum, List.map_cons,
        List.sum_cons] at ih ⊢
      rw [ih h']
      omega

theorem processMessage_of_type (stats : List (String × RawBucket)) (m : Message)
    (ht : m.type = "message") :
    processMessage stats m =
      updateAt (monthKeyOf m.date) (updateBucket m)
        (if (stats.lookup (monthKeyOf m.date)).isSome then stats
         else stats ++ [(monthKeyOf m.date, initBucket (monthKeyOf m.date))]) := by
  simp [processMessage, ht]

theorem rawSum_processMessage (stats : List (String × RawBucket)) (m : Message) :
    rawSum (processMessage stats m) =
      rawSum stats + (if m.type = "message" then 1 else 0) := by
  by_cases ht : m.type = "message"
  · rw [processMessage_of_type stats m ht, if_pos ht]
    by_cases hl : (stats.lookup (monthKeyOf m.date)).isSome
    · rw [if_pos hl, rawSum_updateAt _ m _ hl]
    · rw [if_neg hl]
      have hnone : stats.lookup (monthKeyOf m.date) = none :=
        Option.not_isSome_iff_eq_none.mp hl
      have hs : ((stats ++ [(monthKeyOf m.date, initBucket (monthKeyOf m.date))]).lookup
          (monthKeyOf m.date)).isSome := by
        rw [lookup_append_of_none hnone]
        rfl
      rw [rawSum_updateAt _ m _ hs, rawSum_append]
      simp [rawSum, initBucket]
  · simp [processMessage, ht]

theorem rawSum_foldl (l : List Message) (acc : List (String × RawBucket)) :
    rawSum (l.foldl processMessage acc) =
      rawSum acc + (l.filter (fun m => m.type == "message")).length := by
  induction l generalizing acc with
  | nil => simp
  | cons m l ih =>
    rw [List.foldl_cons, ih, rawSum_processMessage]
    by_cases h : m.type = "message"
    · simp [List.filter_cons, h]
      omega
    · simp [List.filter_cons, h]

/-- C1 (amended): the sum over all buckets of `messageCount` equals the
number of entries of type "message" — regardless of whether their dates
parse, since unparseable dates are accumulated under the "NaN-NaN" bucket
rather than skipped. -/
theorem bucketSum_eq_typedCount (d : ChatData) :
    sumCounts (analyzeChat d) =
      (d.messages.filter (fun m => m.type == "message")).length := by
  have hcomp :
      ((fun (p : String × StatBucket) => p.2.messageCount) ∘
        (fun (p : String × RawBucket) => (p.1, finalizeBucket p.2))) =
        (fun (p : String × RawBucket) => p.2.messageCount) := rfl
  have e : sumCounts (analyzeChat d) =
      rawSum (d.messages.foldl processMessage []) := by
    simp only [sumCounts, analyzeChat, List.map_map, rawSum, hcomp]
  rw [e, rawSum_foldl]
  simp [rawSum]

/-! ### Per-key counts across one message -/

theorem msgCountAt_processMessage (stats : List (String × RawBucket)) (m : Message)
    (ht : m.type = "message") (k : String) :
    msgCountAt k (processMessage stats m) =
      msgCountAt k stats + (if k = monthKeyOf m.date then 1 else 0) := by
  rw [processMessage_of_type stats m ht]
  by_cases hk : k = monthKeyOf m.date
  · rw [← hk, if_pos rfl]
    unfold msgCountAt
    rw [lookup_updateAt_self]
    by_cases hl : (stats.lookup k).isSome
    · rw [if_pos hl]
      cases hx : stats.lookup k with
      | none => rw [hx] at hl; simp at hl
      | some b => simp [hx, updateBucket_messageCount]
    · rw [if_neg hl]
      have hnone : stats.lookup k = none := Option.not_isSome_iff_eq_none.mp hl
      rw [lookup_append_of_none hnone, hnone]
      simp [updateBucket_messageCount, initBucket]
  · rw [if_neg hk]
    unfold msgCountAt
    rw [lookup_updateAt_ne hk]
    by_cases hl : (stats.lookup (monthKeyOf m.date)).isSome
    · rw [if_pos hl]
      simp
    · rw [if_neg hl, lookup_append_ne hk]
      simp

theorem photoCountAt_processMessage (stats : List (String × RawBucket)) (m : Message)
    (ht : m.type = "message") (k : String) :
    photoCountAt k (processMessage stats m) =
      photoCountAt k stats +
        (if k = monthKeyOf m.date then (if photoCheck m then 1 else 0) else 0) := by
  rw [processMessage_of_type stats m ht]
  by_cases hk : k = monthKeyOf m.date
  · rw [← hk, if_pos rfl]
    unfold photoCountAt
    rw [lookup_updateAt_self]
    by_cases hl : (stats.lookup k).isSome
    · rw [if_pos hl]
      cases hx : stats.lookup k with
      | none => rw [hx] at hl; simp at hl
      | some b => simp [hx, updateBucket_photoCount]
    · rw [if_neg hl]
      have hnone : stats.lookup k = none := Option.not_isSome_iff_eq_none.mp hl
      rw [lookup_append_of_none hnone, hnone]
      simp [updateBucket_photoCount, initBucket]
  · rw [if_neg hk]
    unfold photoCountAt
    rw [lookup_updateAt_ne hk]
    by_cases hl : (stats.lookup (monthKeyOf m.date)).isSome
    · rw [if_pos hl]
      simp
    · rw [if_neg hl, lookup_append_ne hk]
      simp

/-- C2 (amended): a type="message" entry whose date cannot be parsed is not
skipped: its month key is the literal "NaN-NaN", processing it increments
exactly that bucket's `messageCount` and leaves every other bucket's
`messageCount` unchanged; the pass itself is a total function and completes
without error. -/
theorem unparseable_goes_to_nan (stats : List (String × RawBucket)) (m : Message)
    (ht : m.type = "message") (hp : parseDate m.date = none) :
    monthKeyOf m.date = "NaN-NaN" ∧
    msgCountAt "NaN-NaN" (processMessage stats m) = msgCountAt "NaN-NaN" stats + 1 ∧
    ∀ k, k ≠ "NaN-NaN" → msgCountAt k (processMessage stats m) = msgCountAt k stats := by
  have hkey : monthKeyOf m.date = "NaN-NaN" := by
    unfold monthKeyOf
    rw [hp]
  refine ⟨hkey, ?_, ?_⟩
  · have h := msgCountAt_processMessage stats m ht "NaN-NaN"
    rw [hkey] at h
    simpa using h
  · intro k hk
    have h := msgCountAt_processMessage stats m ht k
    rw [hkey] at h
    simpa [hk] using h

theorem unparseable_goes_to_nan_witness :
    msgCountAt "NaN-NaN" (processMessage [] msgBad) = msgCountAt "NaN-NaN" [] + 1 ∧
    msgCountAt "2024-01" (processMessage [] msgBad) = msgCountAt "2024-01" [] :=
  ⟨(unparseable_goes_to_nan [] msgBad (by decide) (by decide)).2.1,
   (unparseable_goes_to_nan [] msgBad (by decide) (by decide)).2.2 "2024-01" (by decide)⟩

/-- C6: for a processed type="message" entry, `photoCount` of its month
bucket is incremented exactly when the three-field photo test passes; the
test is the logical OR of the truthiness of `photo`, an explicit
`media_type` equal to "photo", and the truthiness of `photo_id`; and the
spec's scenario (a `photo: true` message with no text) yields a bucket with
photoCount 1 and untouched (all-zero) keyword and empty emoji maps. -/
theorem photoCount_spec :
    (∀ (stats : List (String × RawBucket)) (m : Message), m.type = "message" →
      photoCountAt (monthKeyOf m.date) (processMessage stats m) =
        photoCountAt (monthKeyOf m.date) stats + (if photoCheck m then 1 else 0)) ∧
    (∀ m : Message,
      photoCheck m = (m.photo || (m.media_type == some "photo") || m.photo_id)) ∧
    (analyzeChat ex6).monthlyStats.map
        (fun p => (p.1, p.2.messageCount, p.2.photoCount)) = [("2024-02", 1, 1)] ∧
    (analyzeChat ex6).monthlyStats.map (fun p => (p.2.keywords, p.2.emojis)) =
      [([("добраніч", 0), ("солодких", 0), ("доброго ранку", 0), ("скучив", 0)], [])] := by
  refine ⟨?_, ?_, by decide, by decide⟩
  · intro stats m ht
    have h := photoCountAt_processMessage stats m ht (monthKeyOf m.date)
    simpa using h
  · intro m
    unfold photoCheck
    cases hmt : m.media_type with
    | none => simp
    | some s =>
      by_cases hs : s = "photo"
      · subst hs
        simp
      · have hb : (s == "photo") = false := beq_eq_false_iff_ne.mpr hs
        simp [hb]

theorem photoCount_spec_witness :
    photoCountAt (monthKeyOf msg6.date) (processMessage [] msg6) =
      photoCountAt (monthKeyOf msg6.date) [] + (if photoCheck msg6 then 1 else 0) :=
  photoCount_spec.1 [] msg6 (by decide)

/-! ### Key membership in the bucket map -/

theorem mem_keys_of_lookup_isSome {l : List (String × RawBucket)} {k : String}
    (h : (l.lookup k).isSome) : k ∈ l.map Prod.fst := by
  induction l with
  | nil => simp [List.lookup] at h
  | cons p rest ih =>
    obtain ⟨k0, b⟩ := p
    by_cases heq : k = k0
    · simp [heq]
    · have hb : (k == k0) = false := beq_eq_false_iff_ne.mpr heq
      simp only [List.lookup, hb] at h
      simp [ih h]

theorem keys_processMessage_mono {stats : List (String × RawBucket)} (m : Message)
    {k : String} (h : k ∈ stats.map Prod.fst) :
    k ∈ (processMessage stats m).map Prod.fst := by
  unfold processMessage
  split
  · exact h
  · rw [keys_updateAt]
    split
    · exact h
    · rw [List.map_append]
      exact List.mem_append_left _ h

theorem key_mem_processMessage (stats : List (String × RawBucket)) (m : Message)
    (ht : m.type = "message") :
    monthKeyOf m.date ∈ (processMessage stats m).map Prod.fst := by
  rw [processMessage_of_type stats m ht, keys_updateAt]
  by_cases hl : (stats.lookup (monthKeyOf m.date)).isSome
  · rw [if_pos hl]
    exact mem_keys_of_lookup_isSome hl
  · rw [if_neg hl, List.map_append]
    exact List.mem_append_right _ (by simp)

theorem keys_foldl_mono (l : List Message) (acc : List (String × RawBucket))
    {k : String} (h : k ∈ acc.map Prod.fst) :
    k ∈ (l.foldl processMessage acc).map Prod.fst := by
  induction l generalizing acc with
  | nil => exact h
  | cons m l ih => exact ih _ (keys_processMessage_mono m h)

theorem key_mem_foldl {l : List Message} {m : Message} (hm : m ∈ l)
    (ht : m.type = "message") (acc : List (String × RawBucket)) :
    monthKeyOf m.date ∈ (l.foldl processMessage acc).map Prod.fst := by
  induction l generalizing acc with
  | nil => cases hm
  | cons m0 l ih =>
    rcases List.mem_cons.mp hm with h | h
    · subst h
      exact keys_foldl_mono l _ (key_mem_processMessage acc m ht)
    · exact ih h _

/-- C9: a type="message" entry whose date fails to parse is accumulated
under the literal month key "NaN-NaN", and that key appears in the output
`monthlyStats` like any ordinary month bucket. -/
theorem nan_bucket_in_output (d : ChatData) (m : Message) (hm : m ∈ d.messages)
    (ht : m.type = "message") (hp : parseDate m.date = none) :
    monthKeyOf m.date = "NaN-NaN" ∧
    "NaN-NaN" ∈ (analyzeChat d).monthlyStats.map Prod.fst := by
  have hkey : monthKeyOf m.date = "NaN-NaN" := by
    unfold monthKeyOf
    rw [hp]
  refine ⟨hkey, ?_⟩
  have hmem := key_mem_foldl hm ht ([] : List (String × RawBucket))
  rw [hkey] at hmem
  have e : (analyzeChat d).monthlyStats.map Prod.fst =
      (d.messages.foldl processMessage []).map Prod.fst := by
    simp only [analyzeChat, List.map_map]
    rfl
  rw [e]
  exact hmem

theorem nan_bucket_in_output_witness :
    monthKeyOf msgBad.date = "NaN-NaN" ∧
    "NaN-NaN" ∈ (analyzeChat exBad).monthlyStats.map Prod.fst :=
  nan_bucket_in_output exBad msgBad (by decide) (by decide) (by decide)

/-! ### Keyword-map key invariant (for the formatted keyword output) -/

theorem initBucket_keys (k : String) :
    (initBucket k).keywords.map Prod.fst = fixedKeywords.map lowerStr := by
  simp [initBucket, List.map_map]

theorem bumpAssoc_keys_of_mem {k : String} {l : List (String × Nat)}
    (h : k ∈ l.map Prod.fst) (delta : Nat) :
    (bumpAssoc k delta l).map Prod.fst = l.map Prod.fst := by
  induction l with
  | nil => simp at h
  | cons p rest ih =>
    obtain ⟨k0, v⟩ := p
    by_cases heq : k0 = k
    · subst heq
      simp [bumpAssoc]
    · have hb : (k0 == k) = false := beq_eq_false_iff_ne.mpr heq
      have h' : k ∈ rest.map Prod.fst := by
        rcases List.mem_cons.mp h with h1 | h1
        · exact absurd h1.symm heq
        · exact h1
      simp [bumpAssoc, hb, ih h']

theorem kwStep_keys (t : String) (b : RawBucket) (kw : String)
    (h : lowerStr kw ∈ b.keywords.map Prod.fst) :
    (kwStep t b kw).keywords.map Prod.fst = b.keywords.map Prod.fst := by
  simp only [kwStep]
  split
  · exact bumpAssoc_keys_of_mem h _
  · rfl

theorem foldl_kwStep_keys (t : String) (kws : List String) (b : RawBucket)
    (h : ∀ kw ∈ kws, lowerStr kw ∈ b.keywords.map Prod.fst) :
    ((kws.foldl (kwStep t) b).keywords).map Prod.fst = b.keywords.map Prod.fst := by
  induction kws generalizing b with
  | nil => rfl
  | cons kw kws ih =>
    rw [List.foldl_cons]
    have h1 : lowerStr kw ∈ b.keywords.map Prod.fst := h kw (List.mem_cons_self _ _)
    have hk := kwStep_keys t b kw h1
    have h2 : ∀ kw' ∈ kws, lowerStr kw' ∈ (kwStep t b kw).keywords.map Prod.fst := by
      intro kw' hkw'
      rw [hk]
      exact h kw' (List.mem_cons_of_mem _ hkw')
    rw [ih _ h2, hk]

theorem foldl_kwStep_keys_fixed (t : String) (b : RawBucket)
    (h : b.keywords.map Prod.fst = fixedKeywords.map lowerStr) :
    (fixedKeywords.foldl (kwStep t) b).keywords.map Prod.fst =
      fixedKeywords.map lowerStr := by
  have hmem : ∀ kw ∈ fixedKeywords, lowerStr kw ∈ b.keywords.map Prod.fst := by
    intro kw hkw
    rw [h]
    exact List.mem_map_of_mem _ hkw
  rw [foldl_kwStep_keys t fixedKeywords b hmem, h]

theorem updateBucket_keys (m : Message) (b : RawBucket)
    (h : b.keywords.map Prod.fst = fixedKeywords.map lowerStr) :
    (updateBucket m b).keywords.map Prod.fst = fixedKeywords.map lowerStr := by
  simp only [updateBucket]
  split
  · split
    · rw [foldl_emStep_keywords]
      apply foldl_kwStep_keys_fixed
      exact h
    · rw [foldl_emStep_keywords]
      apply foldl_kwStep_keys_fixed
      exact h
  · split
    · exact h
    · exact h

/-- All buckets of the map carry the full fixed keyword key list. -/
def goodKeys (l : List (String × RawBucket)) : Prop :=
  ∀ p ∈ l, p.2.keywords.map Prod.fst = fixedKeywords.map lowerStr

theorem goodKeys_updateAt (k : String) (m : Message) :
    ∀ l, goodKeys l → goodKeys (updateAt k (updateBucket m) l) := by
  intro l
  induction l with
  | nil =>
    intro _ p hp
    cases hp
  | cons q rest ih =>
    obtain ⟨k0, b⟩ := q
    intro hg p hp
    have hg' : goodKeys rest := fun q hq => hg q (List.mem_cons_of_mem _ hq)
    simp only [updateAt] at hp
    split at hp
    · rcases List.mem_cons.mp hp with h1 | h1
      · subst h1
        exact updateBucket_keys m b (hg (k0, b) (List.mem_cons_self _ _))
      · exact hg' p h1
    · rcases List.mem_cons.mp hp with h1 | h1
      · subst h1
        exact hg (k0, b) (List.mem_cons_self _ _)
      · exact ih hg' p h1

theorem goodKeys_processMessage {stats : List (String × RawBucket)}
    (hg : goodKeys stats) (m : Message) : goodKeys (processMessage stats m) := by
  unfold processMessage
  split
  · exact hg
  · apply goodKeys_updateAt
    split
    · exact hg
    · intro p hp
      rcases List.mem_append.mp hp with h1 | h1
      · exact hg p h1
      · have h2 : p = (monthKeyOf m.date, initBucket (monthKeyOf m.date)) := by
          simpa using h1
        rw [h2]
        exact initBucket_keys _

theorem goodKeys_foldl (l : List Message) (acc : List (String × RawBucket))
    (hg : goodKeys acc) : goodKeys (l.foldl processMessage acc) := by
  induction l generalizing acc with
  | nil => exact hg
  | cons m l ih => exact ih _ (goodKeys_processMessage hg m)

/-- C5: in every output bucket, `keywordsFormatted` holds exactly one
(name, value) entry per fixed keyword — the lowercased keyword — in the
fixed enumeration order, whether or not its count is 0: the name sequence is
exactly ["добраніч", "солодких", "доброго ранку", "скучив"]. -/
theorem keywordsFormatted_complete (d : ChatData) :
    (analyzeChat d).monthlyStats.all
      (fun p => p.2.keywordsFormatted.map Prod.fst ==
        ["добраніч", "солодких", "доброго ранку", "скучив"]) = true := by
  rw [List.all_eq_true]
  intro p hp
  simp only [analyzeChat] at hp
  rcases List.mem_map.mp hp with ⟨q, hq, rfl⟩
  have hg := goodKeys_foldl d.messages []
    (fun r hr => absurd hr (List.not_mem_nil r)) q hq
  rw [beq_iff_eq]
  show q.2.keywords.map Prod.fst = _
  rw [hg]
  decide

/-! ### Properties of the stable descending ranking sort -/

theorem mem_insertDesc {x y : String × Nat} :
    ∀ {l : List (String × Nat)}, y ∈ insertDesc x l → y = x ∨ y ∈ l := by
  intro l
  induction l with
  | nil =>
    intro h
    simp [insertDesc] at h
    exact Or.inl h
  | cons z zs ih =>
    intro h
    simp only [insertDesc] at h
    split at h
    · rcases List.mem_cons.mp h with h1 | h1
      · exact Or.inr (by simp [h1])
      · rcases ih h1 with h2 | h2
        · exact Or.inl h2
        · exact Or.inr (List.mem_cons_of_mem _ h2)
    · rcases List.mem_cons.mp h with h1 | h1
      · exact Or.inl h1
      · exact Or.inr h1

theorem insertDesc_sorted {l : List (String × Nat)}
    (h : l.Pairwise (fun a b => b.2 ≤ a.2)) (x : String × Nat) :
    (insertDesc x l).Pairwise (fun a b => b.2 ≤ a.2) := by
  induction l with
  | nil => simp [insertDesc]
  | cons y ys ih =>
    rw [List.pairwise_cons] at h
    obtain ⟨hy, hys⟩ := h
    simp only [insertDesc]
    split
    · next hxy =>
      rw [List.pairwise_cons]
      refine ⟨?_, ih hys⟩
      intro z hz
      rcases mem_insertDesc hz with h1 | h1
      · rw [h1]
        exact hxy
      · exact hy z h1
    · next hxy =>
      have hyx : y.2 < x.2 := Nat.lt_of_not_le hxy
      rw [List.pairwise_cons]
      constructor
      · intro z hz
        rcases List.mem_cons.mp hz with h1 | h1
        · rw [h1]
          exact Nat.le_of_lt hyx
        · exact Nat.le_trans (hy z h1) (Nat.le_of_lt hyx)
      · exact List.pairwise_cons.mpr ⟨hy, hys⟩

theorem foldl_insertDesc_sorted (l : List (String × Nat)) :
    ∀ acc, acc.Pairwise (fun a b => b.2 ≤ a.2) →
      (l.foldl (fun acc x => insertDesc x acc) acc).Pairwise (fun a b => b.2 ≤ a.2) := by
  induction l with
  | nil => exact fun acc h => h
  | cons x l ih => exact fun acc h => ih _ (insertDesc_sorted h x)

theorem sortDesc_sorted (l : List (String × Nat)) :
    (sortDesc l).Pairwise (fun a b => b.2 ≤ a.2) :=
  foldl_insertDesc_sorted l [] List.Pairwise.nil

theorem filter_insertDesc (c : Nat) {l : List (String × Nat)}
    (h : l.Pairwise (fun a b => b.2 ≤ a.2)) (x : String × Nat) :
    (insertDesc x l).filter (fun p => p.2 == c) =
      l.filter (fun p => p.2 == c) ++ (if x.2 == c then [x] else []) := by
  induction l with
  | nil =>
    simp only [insertDesc, List.filter, List.nil_append]
    cases hxc : (x.2 == c) <;> simp
  | cons y ys ih =>
    rw [List.pairwise_cons] at h
    obtain ⟨hy, hys⟩ := h
    simp only [insertDesc]
    split
    · next hxy =>
      rw [List.filter_cons, List.filter_cons, ih hys]
      cases hyc : (y.2 == c) <;> simp
    · next hxy =>
      have hlt : y.2 < x.2 := Nat.lt_of_not_le hxy
      cases hxc : (x.2 == c)
      · rw [List.filter_cons, if_neg (by simp [hxc])]
        simp
      · have hxc' : x.2 = c := by
          rwa [beq_iff_eq] at hxc
        have hnil : (y :: ys).filter (fun p => p.2 == c) = [] := by
          rw [List.filter_eq_nil_iff]
          intro a ha
          have ha2 : a.2 ≤ y.2 := by
            rcases List.mem_cons.mp ha with h1 | h1
            · rw [h1]
            · exact hy a h1
          simp only [beq_iff_eq]
          omega
        rw [List.filter_cons, if_pos (by simp [hxc]), hnil]
        simp

theorem filter_foldl_insertDesc (c : Nat) (l : List (String × Nat)) :
    ∀ acc, acc.Pairwise (fun a b => b.2 ≤ a.2) →
      (l.foldl (fun acc x => insertDesc x acc) acc).filter (fun p => p.2 == c) =
        acc.filter (fun p => p.2 == c) ++ l.filter (fun p => p.2 == c) := by
  induction l with
  | nil =>
    intro acc h
    simp
  | cons x l ih =>
    intro acc h
    rw [List.foldl_cons, ih _ (insertDesc_sorted h x), filter_insertDesc c h x,
      List.filter_cons]
    cases hxc : (x.2 == c) <;> simp [List.append_assoc]

theorem sortDesc_stable (c : Nat) (l : List (String × Nat)) :
    (sortDesc l).filter (fun p => p.2 == c) = l.filter (fun p => p.2 == c) := by
  have h := filter_foldl_insertDesc c l [] List.Pairwise.nil
  simpa [sortDesc] using h

/-- C3: for every bucket, the ranking returns the first 4 entries of a
stable descending sort of the emoji map: at most 4 pairs, counts
non-increasing, and for each count value the tied emojis keep exactly the
order in which their map entries were first created (the filter at any
count is unchanged by the sort); on the spec's scenario table the output is
[(🎉,3),(🔥,3),(😀,2),(🥳,1)]. -/
theorem topEmojis_spec (b : RawBucket) :
    (finalizeBucket b).topEmojis = (sortDesc b.emojis).take 4 ∧
    (finalizeBucket b).topEmojis.length ≤ 4 ∧
    (finalizeBucket b).topEmojis.Pairwise (fun x y => y.2 ≤ x.2) ∧
    (∀ c : Nat, (sortDesc b.emojis).filter (fun p => p.2 == c) =
      b.emojis.filter (fun p => p.2 == c)) ∧
    (finalizeBucket ex3Bucket).topEmojis =
      [("🎉", 3), ("🔥", 3), ("😀", 2), ("🥳", 1)] := by
  refine ⟨rfl, ?_, ?_, fun c => sortDesc_stable c b.emojis, by decide⟩
  · show ((sortDesc b.emojis).take 4).length ≤ 4
    exact List.length_take_le 4 _
  · show ((sortDesc b.emojis).take 4).Pairwise (fun x y => y.2 ≤ x.2)
    exact (sortDesc_sorted b.emojis).sublist (List.take_sublist 4 _)

/-- C7 (amended): both queries fail with `InvalidFormat` on inputs not
matching their regexes, and fail with `NotFound` when no stored analysis
exists; the month query additionally fails with `NotFound` when no bucket
matches the requested key, but the year query does not — with a valid year
and a stored analysis it always succeeds, returning the (possibly empty)
list of matching months. -/
theorem queries_spec :
    (∀ (y : String) (st : Option ChatAnalysis),
      isYearStr y = false → yearQuery y st = QueryResult.invalidFormat) ∧
    (∀ y : String, isYearStr y = true → yearQuery y none = QueryResult.notFound) ∧
    (∀ (y : String) (a : ChatAnalysis), isYearStr y = true →
      ∃ r, yearQuery y (some a) = QueryResult.ok r) ∧
    (∀ (k : String) (st : Option ChatAnalysis),
      isMonthKeyStr k = false → monthQuery k st = QueryResult.invalidFormat) ∧
    (∀ k : String, isMonthKeyStr k = true → monthQuery k none = QueryResult.notFound) ∧
    (∀ (k : String) (a : ChatAnalysis), isMonthKeyStr k = true →
      a.monthlyStats.find? (fun p => p.2.month == k) = none →
      monthQuery k (some a) = QueryResult.notFound) := by
  refine ⟨?_, ?_, ?_, ?_, ?_, ?_⟩
  · intro y st h
    simp [yearQuery, h]
  · intro y h
    simp [yearQuery, h]
  · intro y a h
    refine ⟨sortByMonth ((a.monthlyStats.filter
      (fun p => strStartsWith p.2.month (y ++ "-"))).map
      (fun p => (p.2.month, p.2.messageCount))), ?_⟩
    simp [yearQuery, h]
  · intro k st h
    simp [monthQuery, h]
  · intro k h
    simp [monthQuery, h]
  · intro k a h hf
    simp [monthQuery, h, hf]

theorem queries_spec_witness :
    yearQuery "20x4" none = QueryResult.invalidFormat ∧
    yearQuery "2024" none = QueryResult.notFound ∧
    monthQuery "2024-01" (some stored7) = QueryResult.notFound :=
  ⟨queries_spec.1 "20x4" none (by decide),
   queries_spec.2.1 "2024" (by decide),
   queries_spec.2.2.2.2.2 "2024-01" stored7 (by decide) (by decide)⟩
